import Mathlib

/-!
Verification development for the DJL PyTorch native interop layer
(functional ops and tensor pointwise ops).

The repository source is a thin JNI glue layer: each entry point takes a
tensor handle, delegates to the underlying tensor library, and wraps the
result in a fresh handle.  The embedding below reproduces the glue code
structure exactly (control flow, axis constants, dimension-dependent
branching taken verbatim from the two .cc files) and models the underlying
tensor-library primitives (permute, broadcast arithmetic, bilinear
upsampling, reductions) from the specification, since those primitives are
not part of the repository source.  Elements are modelled as extended
rationals with IEEE-style special values; machine floating point rounding
is not modelled (all claims here are rounding-independent).
-/

namespace DJL

/-- Modelled from the spec: element values of a tensor.  The underlying
library stores IEEE floats; we model them as exact rationals extended with
the IEEE special values so that division by zero and its propagation are
representable. -/
inductive FVal where
  | fin : ℚ → FVal
  | posInf : FVal
  | negInf : FVal
  | nan : FVal
deriving DecidableEq, Repr, Inhabited

/-- Modelled from the spec: IEEE-style subtraction on extended values. -/
def FVal.sub : FVal → FVal → FVal
  | FVal.nan, _ => FVal.nan
  | _, FVal.nan => FVal.nan
  | FVal.fin a, FVal.fin b => FVal.fin (a - b)
  | FVal.fin _, FVal.posInf => FVal.negInf
  | FVal.fin _, FVal.negInf => FVal.posInf
  | FVal.posInf, FVal.fin _ => FVal.posInf
  | FVal.negInf, FVal.fin _ => FVal.negInf
  | FVal.posInf, FVal.negInf => FVal.posInf
  | FVal.negInf, FVal.posInf => FVal.negInf
  | FVal.posInf, FVal.posInf => FVal.nan
  | FVal.negInf, FVal.negInf => FVal.nan

/-- Modelled from the spec: IEEE-style division on extended values.
Division of a nonzero finite value by zero yields a signed infinity,
zero divided by zero yields nan (no error is raised). -/
def FVal.div : FVal → FVal → FVal
  | FVal.nan, _ => FVal.nan
  | _, FVal.nan => FVal.nan
  | FVal.fin a, FVal.fin b =>
      if b = 0 then (if a = 0 then FVal.nan else if 0 < a then FVal.posInf else FVal.negInf)
      else FVal.fin (a / b)
  | FVal.fin _, FVal.posInf => FVal.fin 0
  | FVal.fin _, FVal.negInf => FVal.fin 0
  | FVal.posInf, FVal.fin b => if 0 ≤ b then FVal.posInf else FVal.negInf
  | FVal.negInf, FVal.fin b => if 0 ≤ b then FVal.negInf else FVal.posInf
  | FVal.posInf, FVal.posInf => FVal.nan
  | FVal.posInf, FVal.negInf => FVal.nan
  | FVal.negInf, FVal.posInf => FVal.nan
  | FVal.negInf, FVal.negInf => FVal.nan

/-- Modelled from the spec: IEEE-style addition on extended values. -/
def FVal.add : FVal → FVal → FVal
  | FVal.nan, _ => FVal.nan
  | _, FVal.nan => FVal.nan
  | FVal.fin a, FVal.fin b => FVal.fin (a + b)
  | FVal.fin _, FVal.posInf => FVal.posInf
  | FVal.fin _, FVal.negInf => FVal.negInf
  | FVal.posInf, FVal.fin _ => FVal.posInf
  | FVal.negInf, FVal.fin _ => FVal.negInf
  | FVal.posInf, FVal.posInf => FVal.posInf
  | FVal.negInf, FVal.negInf => FVal.negInf
  | FVal.posInf, FVal.negInf => FVal.nan
  | FVal.negInf, FVal.posInf => FVal.nan

/-- Modelled from the spec: multiplication of an extended value by a
rational scalar (used by bilinear interpolation weights and by the
round-trip multiplication by 255). -/
def FVal.smul (c : ℚ) : FVal → FVal
  | FVal.fin a => FVal.fin (c * a)
  | FVal.posInf => if c = 0 then FVal.nan else if 0 < c then FVal.posInf else FVal.negInf
  | FVal.negInf => if c = 0 then FVal.nan else if 0 < c then FVal.negInf else FVal.posInf
  | FVal.nan => FVal.nan

/-- Modelled from the spec: negation of an extended value. -/
def FVal.neg : FVal → FVal
  | FVal.fin a => FVal.fin (-a)
  | FVal.posInf => FVal.negInf
  | FVal.negInf => FVal.posInf
  | FVal.nan => FVal.nan

/-- Element dtype tag of a tensor (collapsing the concrete widths, which no
claim distinguishes). -/
inductive DType where
  | int : DType
  | float : DType
  | bool : DType
deriving DecidableEq, Repr, Inhabited

/-- Error kinds of the engine, as named by the specification. -/
inductive TError where
  | shapeError : TError
  | dtypeError : TError
  | divideByZeroError : TError
deriving DecidableEq, Repr, Inhabited

/-- A dense tensor: dtype, shape, and a flat row-major data buffer. -/
structure Tensor where
  dtype : DType
  shape : List Nat
  data : List FVal
deriving DecidableEq, Repr, Inhabited

/-- Well-formedness: the buffer length equals the product of the shape. -/
def Tensor.wf (t : Tensor) : Prop := t.data.length = t.shape.prod

/-- Row-major flat offset of a multi-index in a shape. -/
def flatten : List Nat → List Nat → Nat
  | _ :: sh, j :: J => j * sh.prod + flatten sh J
  | _, _ => 0

/-- Inverse of flatten: the multi-index of a flat offset in a shape. -/
def unflatten : List Nat → Nat → List Nat
  | [], _ => []
  | _ :: sh, k => k / sh.prod :: unflatten sh (k % sh.prod)

/-- A multi-index is valid for a shape when it has the same length and is
pointwise strictly below the shape. -/
def validIdx : List Nat → List Nat → Bool
  | [], [] => true
  | s :: sh, j :: J => decide (j < s) && validIdx sh J
  | _, _ => false

/-- Element of a tensor at a multi-index (default value when out of range). -/
def Tensor.get (t : Tensor) (idx : List Nat) : FVal :=
  t.data.getD (flatten t.shape idx) default

/-- Modelled from the spec: the validity check of the underlying permute
primitive, which requires the axis list to be a permutation of the axes. -/
def isPermOf (p : List Nat) (r : Nat) : Bool :=
  decide (p.length = r) && (List.range r).all (fun d => p.contains d)

/-- Modelled from the spec: the permute primitive of the underlying
library.  Axis order p must be a permutation of the input axes; output
axis k has the size of input axis p k, and the output element at
multi-index I is the input element whose index at axis d is the component
of I at the position of d in p.  Fails with a shape error otherwise. -/
def permuteT (p : List Nat) (t : Tensor) : Except TError Tensor :=
  if isPermOf p t.shape.length then
    let sh2 := p.map (fun i => t.shape.getD i 0)
    Except.ok ⟨t.dtype, sh2,
      (List.range sh2.prod).map (fun k =>
        let I := unflatten sh2 k
        t.get ((List.range t.shape.length).map (fun d => I.getD (p.indexOf d) 0)))⟩
  else Except.error TError.shapeError

/-- The unsqueeze of axis 0: insert a leading axis of size 1 (row-major
data unchanged). -/
def Tensor.unsqueeze0 (t : Tensor) : Tensor := ⟨t.dtype, 1 :: t.shape, t.data⟩

/-- The squeeze of axis 0: remove the leading axis when it has size 1,
identity otherwise (the behavior of the underlying squeeze primitive). -/
def Tensor.squeeze0 (t : Tensor) : Tensor :=
  match t.shape with
  | 1 :: rest => ⟨t.dtype, rest, t.data⟩
  | _ => t

/-- Modelled from the spec: the source-coordinate mapping of bilinear
resampling, in the two standard conventions selected by the align-corners
flag (corner-aligned linear map, vs half-pixel-centered map clamped at
zero). -/
def srcIndex (align : Bool) (inSize : Nat) (outSize : Int) (d : Nat) : ℚ :=
  if align then
    if outSize ≤ 1 then 0
    else (d : ℚ) * (((inSize : ℚ) - 1) / ((outSize : ℚ) - 1))
  else
    max 0 (((d : ℚ) + 1/2) * ((inSize : ℚ) / (outSize : ℚ)) - 1/2)

/-- Modelled from the spec: bilinear interpolation of one output pixel as
the weighted average of the four nearest input pixels. -/
def interp2d (t : Tensor) (b ch ih iw : Nat) (sy sx : ℚ) : FVal :=
  let y0 : Nat := (Rat.floor sy).toNat
  let y1 : Nat := min (y0 + 1) (ih - 1)
  let dy : ℚ := sy - (y0 : ℚ)
  let x0 : Nat := (Rat.floor sx).toNat
  let x1 : Nat := min (x0 + 1) (iw - 1)
  let dx : ℚ := sx - (x0 : ℚ)
  FVal.add
    (FVal.add (FVal.smul ((1 - dy) * (1 - dx)) (t.get [b, ch, y0, x0]))
              (FVal.smul ((1 - dy) * dx) (t.get [b, ch, y0, x1])))
    (FVal.add (FVal.smul (dy * (1 - dx)) (t.get [b, ch, y1, x0]))
              (FVal.smul (dy * dx) (t.get [b, ch, y1, x1])))

/-- Modelled from the spec: the bilinear 2d upsampling primitive of the
underlying library.  Requires a rank-4 (N,C,H,W) input, an output-size
list of exactly 2 entries, strictly positive input and output spatial
sizes (shape error otherwise), and a floating dtype (dtype error
otherwise). -/
def upsampleBilinear2d (t : Tensor) (osize : List Int) (alignCorners : Bool) :
    Except TError Tensor :=
  match t.shape, osize with
  | [n, c, ih, iw], [oh, ow] =>
    if 0 < oh ∧ 0 < ow ∧ 0 < ih ∧ 0 < iw then
      if t.dtype = DType.float then
        let ohn := oh.toNat
        let own := ow.toNat
        Except.ok ⟨DType.float, [n, c, ohn, own],
          (List.range (List.prod [n, c, ohn, own])).map (fun k =>
            match unflatten [n, c, ohn, own] k with
            | [b, ch, y, x] =>
                interp2d t b ch ih iw (srcIndex alignCorners ih oh y)
                  (srcIndex alignCorners iw ow x)
            | _ => default)⟩
      else Except.error TError.dtypeError
    else Except.error TError.shapeError
  | _, _ => Except.error TError.shapeError

/-- Modelled from the spec: one step of the broadcast shape rule — two
axis sizes are compatible when equal or when one of them is 1. -/
def bcastDim (x y : Nat) : Option Nat :=
  if x = y then some x else if x = 1 then some y else if y = 1 then some x else none

/-- Collect a list of optional sizes, failing when any entry is absent. -/
def allSome : List (Option Nat) → Option (List Nat)
  | [] => some []
  | none :: _ => none
  | some x :: rest => (allSome rest).map (fun l => x :: l)

/-- Modelled from the spec: the broadcast of two shapes — the shorter
shape is padded on the left with size-1 axes, then sizes are combined
axis by axis. -/
def broadcastShapes (a b : List Nat) : Option (List Nat) :=
  let r := max a.length b.length
  let a2 := List.replicate (r - a.length) 1 ++ a
  let b2 := List.replicate (r - b.length) 1 ++ b
  allSome (List.zipWith bcastDim a2 b2)

/-- Modelled from the spec: the element of an operand tensor that a
broadcast elementwise operation reads at output multi-index I (of output
rank r): the leading axes that the operand lacks are dropped, and the
index component is zeroed on every size-1 operand axis. -/
def broadcastGet (t : Tensor) (r : Nat) (I : List Nat) : FVal :=
  let I2 := I.drop (r - t.shape.length)
  t.get (List.zipWith (fun s i => if s = 1 then 0 else i) t.shape I2)

/-- Dtype promotion of a binary elementwise operation. -/
def promote : DType → DType → DType
  | DType.float, _ => DType.float
  | _, DType.float => DType.float
  | DType.int, _ => DType.int
  | _, DType.int => DType.int
  | _, _ => DType.bool

/-- Modelled from the spec: a broadcast binary elementwise operation of
the underlying library; fails with a shape error when the operand shapes
do not broadcast. -/
def tensorBinOp (f : FVal → FVal → FVal) (a b : Tensor) : Except TError Tensor :=
  match broadcastShapes a.shape b.shape with
  | none => Except.error TError.shapeError
  | some sh =>
      Except.ok ⟨promote a.dtype b.dtype, sh,
        (List.range sh.prod).map (fun k =>
          let I := unflatten sh k
          f (broadcastGet a sh.length I) (broadcastGet b sh.length I))⟩

/-- Modelled from the spec: broadcast tensor subtraction. -/
def tensorSub (a b : Tensor) : Except TError Tensor := tensorBinOp FVal.sub a b

/-- Modelled from the spec: broadcast tensor division.  When both operands
have an integer dtype and the divisor holds a zero, the operation fails
with the divide-by-zero error; floating division never fails. -/
def tensorDiv (a b : Tensor) : Except TError Tensor :=
  if a.dtype = DType.int ∧ b.dtype = DType.int ∧ FVal.fin 0 ∈ b.data then
    Except.error TError.divideByZeroError
  else tensorBinOp FVal.div a b

/-- The resize entry point, embedded from the source: record the input
rank; unsqueeze a leading batch axis when the rank is 3; permute with
axis order 0 3 1 2; bilinearly upsample to the target size; permute back
with axis order 0 2 3 1; squeeze the batch axis when the input rank
was 3. -/
def resize (t : Tensor) (tsize : List Int) (alignCorners : Bool) : Except TError Tensor := do
  let dim := t.shape.length
  let temp := if dim = 3 then t.unsqueeze0 else t
  let nchw ← permuteT [0, 3, 1, 2] temp
  let up ← upsampleBilinear2d nchw tsize alignCorners
  let nhwc ← permuteT [0, 2, 3, 1] up
  Except.ok (if dim = 3 then nhwc.squeeze0 else nhwc)

/-- The resize pipeline as the specification words it: a rank-3 input is
promoted to rank 4 by a leading batch axis of size 1, the layout is
permuted to channel-first, bilinear interpolation runs at the target size,
the layout is permuted back to channel-last, and exactly when the input
was rank 3 the inserted batch axis is removed before returning. -/
def resizeSpec (t : Tensor) (tsize : List Int) (alignCorners : Bool) : Except TError Tensor :=
  if t.shape.length = 3 then do
    let promoted := t.unsqueeze0
    let nchw ← permuteT [0, 3, 1, 2] promoted
    let up ← upsampleBilinear2d nchw tsize alignCorners
    let nhwc ← permuteT [0, 2, 3, 1] up
    Except.ok nhwc.squeeze0
  else do
    let nchw ← permuteT [0, 3, 1, 2] t
    let up ← upsampleBilinear2d nchw tsize alignCorners
    let nhwc ← permuteT [0, 2, 3, 1] up
    Except.ok nhwc

/-- The normalize entry point, embedded from the source: the first three
entries of the mean and std arrays are wrapped as rank-3 tensors of shape
3 1 1 (reshaped to 1 3 1 1 when the input has rank 4), then the input is
reduced by broadcast subtraction of the mean followed by broadcast
division by the std. -/
def normalize (t : Tensor) (jmean jstd : List ℚ) : Except TError Tensor :=
  let m3 : List FVal :=
    [FVal.fin (jmean.getD 0 0), FVal.fin (jmean.getD 1 0), FVal.fin (jmean.getD 2 0)]
  let s3 : List FVal :=
    [FVal.fin (jstd.getD 0 0), FVal.fin (jstd.getD 1 0), FVal.fin (jstd.getD 2 0)]
  let meanT : Tensor :=
    if t.shape.length = 4 then ⟨DType.float, [1, 3, 1, 1], m3⟩ else ⟨DType.float, [3, 1, 1], m3⟩
  let stdT : Tensor :=
    if t.shape.length = 4 then ⟨DType.float, [1, 3, 1, 1], s3⟩ else ⟨DType.float, [3, 1, 1], s3⟩
  do
    let sub1 ← tensorSub t meanT
    tensorDiv sub1 stdT

/-- Modelled from the spec: scalar division by 255 with conversion to a
floating dtype (the pixel-to-float conversion step of the underlying
library that the toTensor glue delegates to). -/
def div255 (t : Tensor) : Tensor :=
  ⟨DType.float, t.shape, t.data.map (fun v => FVal.div v (FVal.fin 255))⟩

/-- Multiplication of every element by a rational scalar (used to state
the round-trip property). -/
def mulScalar (c : ℚ) (t : Tensor) : Tensor :=
  ⟨t.dtype, t.shape, t.data.map (FVal.smul c)⟩

/-- The toTensor entry point, embedded from the source: record the input
rank; unsqueeze a leading batch axis when the rank is 3; divide by 255;
permute with axis order 0 3 1 2 to channel-first; squeeze the batch axis
when the input rank was 3 (no permute back). -/
def toTensor (t : Tensor) : Except TError Tensor := do
  let dim := t.shape.length
  let temp := if dim = 3 then t.unsqueeze0 else t
  let nchw ← permuteT [0, 3, 1, 2] (div255 temp)
  Except.ok (if dim = 3 then nchw.squeeze0 else nchw)

/-- Truncation of a rational toward zero, as an integer. -/
def ratTrunc (q : ℚ) : ℤ := if 0 ≤ q then Rat.floor q else Rat.ceil q

/-- The scalar division entry point, embedded from the source delegation.
Modelled from the spec: on an integer dtype the scalar is taken in the
numeric type of the tensor and division by zero fails with the
divide-by-zero error (otherwise truncating integer division); on a
floating dtype the division follows IEEE semantics and never fails;
division is not defined on the boolean dtype. -/
def torchDiv (t : Tensor) (s : ℚ) : Except TError Tensor :=
  match t.dtype with
  | DType.int =>
      if s = 0 then Except.error TError.divideByZeroError
      else Except.ok ⟨DType.int, t.shape,
        t.data.map (fun v =>
          match v with
          | FVal.fin a => FVal.fin ((ratTrunc (a / s) : ℤ) : ℚ)
          | w => w)⟩
  | DType.float =>
      Except.ok ⟨DType.float, t.shape, t.data.map (fun v => FVal.div v (FVal.fin s))⟩
  | DType.bool => Except.error TError.dtypeError

/-- Modelled from the spec: truthiness of an element (nonzero or true);
the IEEE special values are all nonzero, hence truthy. -/
def truthy : FVal → Bool
  | FVal.fin q => decide (q ≠ 0)
  | _ => true

/-- A boolean element value. -/
def boolV (b : Bool) : FVal := FVal.fin (if b then 1 else 0)

/-- The full reduction all, embedded from the source delegation.  Modelled
from the spec: a rank-0 boolean tensor, true exactly when every element is
truthy (vacuously true on an empty tensor). -/
def torchAll (t : Tensor) : Tensor := ⟨DType.bool, [], [boolV (t.data.all truthy)]⟩

/-- The full reduction any, embedded from the source delegation.  Modelled
from the spec: a rank-0 boolean tensor, true exactly when at least one
element is truthy (false on an empty tensor). -/
def torchAny (t : Tensor) : Tensor := ⟨DType.bool, [], [boolV (t.data.any truthy)]⟩

/-- Modelled from the spec: elementwise logical negation, producing a
boolean tensor. -/
def logicalNot (t : Tensor) : Tensor :=
  ⟨DType.bool, t.shape, t.data.map (fun v => boolV (! truthy v))⟩

/-- The none entry point, embedded from the source: the logical negation
of the any reduction. -/
def torchNone (t : Tensor) : Tensor := logicalNot (torchAny t)

/-- Elementwise negation of a tensor. -/
def Tensor.negT (t : Tensor) : Tensor := ⟨t.dtype, t.shape, t.data.map FVal.neg⟩

/-- The handle store of the interop boundary: tensors addressed by handle
index; a fresh handle is the current length. -/
structure Store where
  tensors : List Tensor
deriving DecidableEq, Repr, Inhabited

/-- The neg entry point, embedded from the source: with the in-place flag
the tensor behind the handle is negated in place and the same handle is
returned; otherwise a new tensor is allocated behind a fresh handle. -/
def torchNeg (st : Store) (h : Nat) (inplace : Bool) : Store × Nat :=
  if inplace then
    (⟨st.tensors.set h ((st.tensors.getD h default).negT)⟩, h)
  else
    (⟨st.tensors ++ [(st.tensors.getD h default).negT]⟩, st.tensors.length)

/-! ### Index machinery lemmas -/

theorem flatten_lt {sh J : List Nat} (h : validIdx sh J = true) :
    flatten sh J < sh.prod := by
  induction sh generalizing J with
  | nil =>
    cases J with
    | nil => simp [flatten, List.prod]
    | cons j J => simp [validIdx] at h
  | cons s sh ih =>
    cases J with
    | nil => simp [validIdx] at h
    | cons j J =>
      simp only [validIdx, Bool.and_eq_true, decide_eq_true_eq] at h
      have hJ := ih h.2
      simp only [flatten, List.prod_cons]
      calc j * sh.prod + flatten sh J < j * sh.prod + sh.prod := by omega
        _ = (j + 1) * sh.prod := by ring
        _ ≤ s * sh.prod := Nat.mul_le_mul_right _ h.1

theorem flatten_unflatten {sh : List Nat} {k : Nat} (h : k < sh.prod) :
    flatten sh (unflatten sh k) = k := by
  induction sh generalizing k with
  | nil => simp [List.prod] at h; simp [unflatten, flatten, h]
  | cons s sh ih =>
    have hP : 0 < sh.prod := by
      rcases Nat.eq_zero_or_pos sh.prod with h0 | h0
      · simp [List.prod_cons, h0] at h
      · exact h0
    simp only [unflatten, flatten]
    rw [ih (Nat.mod_lt _ hP)]
    rw [Nat.mul_comm]
    exact Nat.div_add_mod k sh.prod

theorem unflatten_flatten {sh J : List Nat} (h : validIdx sh J = true) :
    unflatten sh (flatten sh J) = J := by
  induction sh generalizing J with
  | nil =>
    cases J with
    | nil => simp [unflatten]
    | cons j J => simp [validIdx] at h
  | cons s sh ih =>
    cases J with
    | nil => simp [validIdx] at h
    | cons j J =>
      simp only [validIdx, Bool.and_eq_true, decide_eq_true_eq] at h
      have hf : flatten sh J < sh.prod := flatten_lt h.2
      have hP : 0 < sh.prod := by omega
      simp only [unflatten, flatten]
      rw [Nat.mul_comm j sh.prod, Nat.mul_add_div hP, Nat.mul_add_mod,
        Nat.div_eq_of_lt hf, Nat.mod_eq_of_lt hf, Nat.add_zero, ih h.2]

theorem unflatten_valid {sh : List Nat} {k : Nat} (h : k < sh.prod) :
    validIdx sh (unflatten sh k) = true := by
  induction sh generalizing k with
  | nil => simp [unflatten, validIdx]
  | cons s sh ih =>
    have hP : 0 < sh.prod := by
      rcases Nat.eq_zero_or_pos sh.prod with h0 | h0
      · simp [List.prod_cons, h0] at h
      · exact h0
    simp only [unflatten, validIdx, Bool.and_eq_true, decide_eq_true_eq]
    refine ⟨?_, ih (Nat.mod_lt _ hP)⟩
    rw [Nat.div_lt_iff_lt_mul hP]
    simpa [List.prod_cons, Nat.mul_comm] using h

theorem unflatten_length (sh : List Nat) (k : Nat) :
    (unflatten sh k).length = sh.length := by
  induction sh generalizing k with
  | nil => simp [unflatten]
  | cons s sh ih => simp [unflatten, ih]

theorem getD_map_range {α : Type} {n k : Nat} (h : k < n) (f : Nat → α) (d : α) :
    ((List.range n).map f).getD k d = f k := by
  have hk : k < ((List.range n).map f).length := by simpa using h
  rw [List.getD_eq_getElem _ _ hk, List.getElem_map, List.getElem_range]

theorem getD_map_lt {α β : Type} {l : List α} {k : Nat} (h : k < l.length)
    (f : α → β) (d : β) (d2 : α) :
    (l.map f).getD k d = f (l.getD k d2) := by
  have hk : k < (l.map f).length := by simpa using h
  rw [List.getD_eq_getElem _ _ hk, List.getElem_map, List.getD_eq_getElem _ _ h]

theorem map_getD_range_self {α : Type} {l : List α} {n : Nat} (h : l.length = n) (d : α) :
    (List.range n).map (fun k => l.getD k d) = l := by
  apply List.ext_getElem
  · simp [h]
  · intro i h1 h2
    rw [List.getElem_map, List.getElem_range, List.getD_eq_getElem _ _ h2]

theorem getD_take_lt {α : Type} (l : List α) (n i : Nat) (d : α) (h : i < n) :
    (l.take n).getD i d = l.getD i d := by
  induction n generalizing i l with
  | zero => omega
  | succ n ih =>
    cases l with
    | nil => simp
    | cons a l =>
      cases i with
      | zero => simp [List.take]
      | succ i => simpa [List.take] using ih l i (by omega)

theorem length_eq_four {α : Type} {l : List α} (h : l.length = 4) :
    ∃ a b c d, l = [a, b, c, d] := by
  rcases l with _ | ⟨a, _ | ⟨b, _ | ⟨c, _ | ⟨d, _ | ⟨e, l⟩⟩⟩⟩⟩ <;> simp_all

theorem truthy_boolV (b : Bool) : truthy (boolV b) = b := by
  cases b <;> simp [truthy, boolV]

/-! ### Claim theorems -/

/-- C5: for every tensor, the none reduction equals the logical negation of
the any reduction, and it is a rank-0 boolean tensor that is true exactly
when no element of the tensor is truthy. -/
theorem torchNone_spec (t : Tensor) :
    torchNone t = logicalNot (torchAny t) ∧
    (torchNone t).shape = [] ∧
    (torchNone t).dtype = DType.bool ∧
    ((torchNone t).data = [boolV true] ↔ ∀ v ∈ t.data, truthy v = false) := by
  refine ⟨rfl, rfl, rfl, ?_⟩
  have hd : (torchNone t).data = [boolV (! t.data.any truthy)] := by
    simp [torchNone, torchAny, logicalNot, truthy_boolV]
  rw [hd]
  cases hb : t.data.any truthy with
  | true =>
    simp only [hb, Bool.not_true]
    constructor
    · intro h
      exact absurd (congrArg (fun l => l.getD 0 default) h) (by simp [boolV])
    · intro h
      have hfalse : t.data.any truthy = false :=
        List.any_eq_false.mpr (fun v hv => by simp [h v hv])
      rw [hb] at hfalse
      cases hfalse
  | false =>
    simp only [hb, Bool.not_false, true_iff]
    intro v hv
    simpa using List.any_eq_false.mp hb v hv

/-- C9: the all reduction of a tensor with zero elements is true and the
any reduction is false. -/
theorem all_any_empty (t : Tensor) (h : t.data = []) :
    torchAll t = ⟨DType.bool, [], [boolV true]⟩ ∧
    torchAny t = ⟨DType.bool, [], [boolV false]⟩ := by
  simp [torchAll, torchAny, h]

/-- Witness for C9 at the empty float tensor of shape 0. -/
theorem all_any_empty_witness :
    torchAll ⟨DType.float, [0], []⟩ = ⟨DType.bool, [], [boolV true]⟩ ∧
    torchAny ⟨DType.float, [0], []⟩ = ⟨DType.bool, [], [boolV false]⟩ :=
  all_any_empty ⟨DType.float, [0], []⟩ rfl

/-- C3: dividing a tensor by the scalar zero fails with the divide-by-zero
error on an integer dtype, and on a floating dtype succeeds with every
element divided by zero in the IEEE sense: nan for a zero dividend and a
signed infinity for a nonzero finite dividend. -/
theorem torchDiv_zero (t : Tensor) :
    (t.dtype = DType.int → torchDiv t 0 = Except.error TError.divideByZeroError) ∧
    (t.dtype = DType.float →
      torchDiv t 0 = Except.ok ⟨DType.float, t.shape,
        t.data.map (fun v => FVal.div v (FVal.fin 0))⟩ ∧
      ∀ q : ℚ, FVal.div (FVal.fin q) (FVal.fin 0) =
        (if q = 0 then FVal.nan else if 0 < q then FVal.posInf else FVal.negInf)) := by
  refine ⟨fun h => ?_, fun h => ⟨?_, fun q => ?_⟩⟩
  · simp [torchDiv, h]
  · simp [torchDiv, h]
  · simp [FVal.div]

/-- Witness for C3 at a one-element integer tensor and a one-element float
tensor. -/
theorem torchDiv_zero_witness :
    torchDiv ⟨DType.int, [1], [FVal.fin 5]⟩ 0 = Except.error TError.divideByZeroError ∧
    torchDiv ⟨DType.float, [1], [FVal.fin 5]⟩ 0 =
      Except.ok ⟨DType.float, [1], [FVal.div (FVal.fin 5) (FVal.fin 0)]⟩ :=
  ⟨(torchDiv_zero ⟨DType.int, [1], [FVal.fin 5]⟩).1 rfl,
   ((torchDiv_zero ⟨DType.float, [1], [FVal.fin 5]⟩).2 rfl).1⟩

/-- C6: the in-place neg on a valid handle returns the same handle,
allocates nothing (the store keeps its length), negates every element of
the tensor behind the handle, and leaves every other handle untouched. -/
theorem torchNeg_inplace (st : Store) (h : Nat) (hh : h < st.tensors.length) :
    (torchNeg st h true).2 = h ∧
    (torchNeg st h true).1.tensors.length = st.tensors.length ∧
    (torchNeg st h true).1.tensors.getD h default =
      ⟨(st.tensors.getD h default).dtype, (st.tensors.getD h default).shape,
        (st.tensors.getD h default).data.map FVal.neg⟩ ∧
    ∀ h2, h2 ≠ h →
      (torchNeg st h true).1.tensors.getD h2 default = st.tensors.getD h2 default := by
  refine ⟨rfl, by simp [torchNeg], ?_, fun h2 hne => ?_⟩
  · have hlen : h < (st.tensors.set h ((st.tensors.getD h default).negT)).length := by
      simpa using hh
    simp only [torchNeg, if_pos]
    rw [List.getD_eq_getElem _ _ hlen, List.getElem_set_self]
    rfl
  · simp only [torchNeg, if_pos]
    by_cases h2lt : h2 < st.tensors.length
    · have hlen : h2 < (st.tensors.set h ((st.tensors.getD h default).negT)).length := by
        simpa using h2lt
      rw [List.getD_eq_getElem _ _ hlen, List.getElem_set_ne (fun he => hne he.symm),
        List.getD_eq_getElem _ _ h2lt]
    · rw [List.getD_eq_default _ _ (by simpa using Nat.le_of_not_lt h2lt),
        List.getD_eq_default _ _ (Nat.le_of_not_lt h2lt)]

/-- Witness for C6 at a one-tensor store. -/
theorem torchNeg_inplace_witness :
    (torchNeg ⟨[⟨DType.float, [1], [FVal.fin 2]⟩]⟩ 0 true).2 = 0 ∧
    (torchNeg ⟨[⟨DType.float, [1], [FVal.fin 2]⟩]⟩ 0 true).1.tensors.length = 1 ∧
    (torchNeg ⟨[⟨DType.float, [1], [FVal.fin 2]⟩]⟩ 0 true).1.tensors.getD 0 default =
      ⟨DType.float, [1], [FVal.fin 2].map FVal.neg⟩ ∧
    ∀ h2, h2 ≠ 0 →
      (torchNeg ⟨[⟨DType.float, [1], [FVal.fin 2]⟩]⟩ 0 true).1.tensors.getD h2 default =
        (⟨[⟨DType.float, [1], [FVal.fin 2]⟩]⟩ : Store).tensors.getD h2 default :=
  torchNeg_inplace ⟨[⟨DType.float, [1], [FVal.fin 2]⟩]⟩ 0 (by decide)

/-- C10: normalize reads exactly the first three entries of the mean and
std arrays: two calls whose arrays agree on the first three entries give
the same result, and in particular any entries past the first three are
ignored. -/
theorem normalize_first_three (t : Tensor) (m s m2 s2 : List ℚ)
    (hm : m.take 3 = m2.take 3) (hs : s.take 3 = s2.take 3) :
    normalize t m s = normalize t m2 s2 ∧
    normalize t m s = normalize t (m.take 3) (s.take 3) := by
  have key : ∀ (u u2 v v2 : List ℚ), u.take 3 = u2.take 3 → v.take 3 = v2.take 3 →
      normalize t u v = normalize t u2 v2 := by
    intro u u2 v v2 hu hv
    have eu : ∀ i, i < 3 → u.getD i 0 = u2.getD i 0 := fun i hi => by
      rw [← getD_take_lt u 3 i 0 hi, ← getD_take_lt u2 3 i 0 hi, hu]
    have ev : ∀ i, i < 3 → v.getD i 0 = v2.getD i 0 := fun i hi => by
      rw [← getD_take_lt v 3 i 0 hi, ← getD_take_lt v2 3 i 0 hi, hv]
    simp only [normalize, eu 0 (by omega), eu 1 (by omega), eu 2 (by omega),
      ev 0 (by omega), ev 1 (by omega), ev 2 (by omega)]
  exact ⟨key m m2 s s2 hm hs, key m (m.take 3) s (s.take 3) (by simp [List.take_take])
    (by simp [List.take_take])⟩

/-- Witness for C10: a mean array of length 4 behaves as its first three
entries. -/
theorem normalize_first_three_witness :
    normalize ⟨DType.float, [3, 1, 1], [FVal.fin 1, FVal.fin 2, FVal.fin 3]⟩
        [1, 2, 3, 99] [1, 1, 1, 77] =
      normalize ⟨DType.float, [3, 1, 1], [FVal.fin 1, FVal.fin 2, FVal.fin 3]⟩
        [1, 2, 3] [1, 1, 1] ∧
    normalize ⟨DType.float, [3, 1, 1], [FVal.fin 1, FVal.fin 2, FVal.fin 3]⟩
        [1, 2, 3, 99] [1, 1, 1, 77] =
      normalize ⟨DType.float, [3, 1, 1], [FVal.fin 1, FVal.fin 2, FVal.fin 3]⟩
        ([1, 2, 3, 99].take 3) ([1, 1, 1, 77].take 3) :=
  normalize_first_three ⟨DType.float, [3, 1, 1], [FVal.fin 1, FVal.fin 2, FVal.fin 3]⟩
    [1, 2, 3, 99] [1, 1, 1, 77] [1, 2, 3] [1, 1, 1] (by decide) (by decide)

/-- C1: on a rank-3 or rank-4 input, resize equals the staged composition
of the specification: promote a rank-3 input with a leading batch axis,
permute to channel-first, bilinearly interpolate to the target size with
the given align-corners flag, permute back to channel-last, and exactly
when the input was rank 3 remove the inserted batch axis. -/
theorem resize_spec_composition (t : Tensor) (tsize : List Int) (ac : Bool)
    (h : t.shape.length = 3 ∨ t.shape.length = 4) :
    resize t tsize ac = resizeSpec t tsize ac := by
  rcases h with h | h
  · simp [resize, resizeSpec, h]
  · have h3 : ¬ t.shape.length = 3 := by omega
    simp [resize, resizeSpec, h3]

/-- Witness for C1 at a concrete rank-3 tensor. -/
theorem resize_spec_composition_witness :
    resize ⟨DType.float, [1, 1, 1], [FVal.fin 7]⟩ [1, 1] false =
      resizeSpec ⟨DType.float, [1, 1, 1], [FVal.fin 7]⟩ [1, 1] false :=
  resize_spec_composition ⟨DType.float, [1, 1, 1], [FVal.fin 7]⟩ [1, 1] false (Or.inl rfl)

theorem permuteT_fail_of_len {t : Tensor} (h : ¬ t.shape.length = 4) :
    permuteT [0, 3, 1, 2] t = Except.error TError.shapeError := by
  rw [permuteT, if_neg]
  intro hp
  simp only [isPermOf, Bool.and_eq_true, decide_eq_true_eq] at hp
  exact h hp.1.symm

theorem bindOk {e a b : Type} (x : a) (f : a -> Except e b) :
    (Except.ok x : Except e a) >>= f = f x := rfl

theorem bindErr {e a b : Type} (x : e) (f : a -> Except e b) :
    (Except.error x : Except e a) >>= f = Except.error x := rfl

theorem permuteT_ok_shape {p : List Nat} {t : Tensor} (h : isPermOf p t.shape.length = true) :
    ∃ u, permuteT p t = Except.ok u ∧ u.shape = p.map (fun i => t.shape.getD i 0) ∧
      u.dtype = t.dtype := by
  rw [permuteT, if_pos h]
  exact ⟨_, rfl, rfl, rfl⟩

/-- C8: resize fails with the shape error whenever the input rank is
neither 3 nor 4, or whenever the target size does not consist of exactly
two positive entries. -/
theorem resize_shape_error (t : Tensor) (tsize : List Int) (ac : Bool)
    (h : (¬ t.shape.length = 3 ∧ ¬ t.shape.length = 4) ∨
      ¬ (tsize.length = 2 ∧ ∀ s ∈ tsize, 0 < s)) :
    resize t tsize ac = Except.error TError.shapeError := by
  by_cases h34 : t.shape.length = 3 ∨ t.shape.length = 4
  · -- the permute succeeds and the upsampling step rejects the target size
    have hts : ¬ (tsize.length = 2 ∧ ∀ s ∈ tsize, 0 < s) := by
      rcases h with ⟨ha, hb⟩ | h
      · rcases h34 with h3 | h4
        · exact absurd h3 ha
        · exact absurd h4 hb
      · exact h
    have hup : ∀ (dt : DType) (da : List FVal) (a b c d : Nat),
        upsampleBilinear2d ⟨dt, [a, b, c, d], da⟩ tsize ac = Except.error TError.shapeError := by
      intro dt da a b c d
      rcases tsize with _ | ⟨x, _ | ⟨y, _ | ⟨z, rest⟩⟩⟩
      · rfl
      · rfl
      · have hxy : ¬ (0 < x ∧ 0 < y) := by
          intro hx
          refine hts ⟨rfl, fun s hs => ?_⟩
          rcases hs with hs | hs | hs <;> simp_all
        simp only [upsampleBilinear2d]
        rw [if_neg]
        intro hc
        exact hxy ⟨hc.1, hc.2.1⟩
      · rfl
    rcases h34 with h3 | h4
    · obtain ⟨a, b, c, hsh⟩ := List.length_eq_three.mp h3
      have hlen : (Tensor.unsqueeze0 t).shape.length = 4 := by
        simp [Tensor.unsqueeze0]
        omega
      obtain ⟨u, hu, hush, _⟩ := permuteT_ok_shape
        (p := [0, 3, 1, 2]) (t := t.unsqueeze0) (by rw [hlen]; decide)
      have hush2 : u.shape = [1, c, a, b] := by
        rw [hush]
        simp [Tensor.unsqueeze0, hsh]
      rcases u with ⟨udt, ush, uda⟩
      simp only at hush2
      subst hush2
      simp only [resize, h3]
      rw [if_true, hu, bindOk, hup, bindErr]
    · obtain ⟨a, b, c, d, hsh⟩ := length_eq_four h4
      have h3 : ¬ t.shape.length = 3 := by omega
      obtain ⟨u, hu, hush, _⟩ := permuteT_ok_shape
        (p := [0, 3, 1, 2]) (t := t) (by rw [h4]; decide)
      have hush2 : u.shape = [a, d, b, c] := by
        rw [hush, hsh]
        rfl
      rcases u with ⟨udt, ush, uda⟩
      simp only at hush2
      subst hush2
      simp only [resize, h3, if_neg, ite_false]
      rw [hu, bindOk, hup, bindErr]
  · push_neg at h34
    simp only [resize, h34.1, if_neg, ite_false]
    rw [permuteT_fail_of_len h34.2, bindErr]

theorem bcastDim_one (x : Nat) : bcastDim x 1 = some x := by
  unfold bcastDim
  by_cases h : x = 1 <;> simp [h]

theorem bcastDim_three (a : Nat) :
    bcastDim a 3 = if a = 1 ∨ a = 3 then some 3 else none := by
  unfold bcastDim
  by_cases h3 : a = 3
  · simp [h3]
  · by_cases h1 : a = 1 <;> simp [h1, h3]

theorem broadcastShapes_3_311 (a b c : Nat) :
    broadcastShapes [a, b, c] [3, 1, 1] = (bcastDim a 3).map (fun x => [x, b, c]) := by
  cases hd : bcastDim a 3 <;>
    simp [broadcastShapes, allSome, bcastDim_one, hd]

theorem broadcastShapes_4_1311 (n a b c : Nat) :
    broadcastShapes [n, a, b, c] [1, 3, 1, 1] = (bcastDim a 3).map (fun x => [n, x, b, c]) := by
  cases hd : bcastDim a 3 <;>
    simp [broadcastShapes, allSome, bcastDim_one, hd]

theorem promote_float (d : DType) : promote d DType.float = DType.float := by
  cases d <;> rfl

theorem tensorBinOp_get {f : FVal → FVal → FVal} {a b : Tensor} {sh : List Nat}
    (hbs : broadcastShapes a.shape b.shape = some sh) :
    tensorBinOp f a b = Except.ok ⟨promote a.dtype b.dtype, sh,
      (List.range sh.prod).map (fun k =>
        f (broadcastGet a sh.length (unflatten sh k))
          (broadcastGet b sh.length (unflatten sh k)))⟩ := by
  rw [tensorBinOp, hbs]

theorem tensorBinOp_error {f : FVal → FVal → FVal} {a b : Tensor} {e : TError}
    (h : tensorBinOp f a b = Except.error e) : e = TError.shapeError := by
  rw [tensorBinOp] at h
  cases hbs : broadcastShapes a.shape b.shape with
  | none => rw [hbs] at h; cases h; rfl
  | some sh => rw [hbs] at h; cases h

theorem rangeMap_get {sh J : List Nat} (g : Nat → FVal) (hJ : validIdx sh J = true) (dt : DType) :
    (⟨dt, sh, (List.range sh.prod).map g⟩ : Tensor).get J = g (flatten sh J) := by
  unfold Tensor.get
  exact getD_map_range (flatten_lt hJ) g default

theorem broadcastGet_self3 {t : Tensor} {a b c ch i j : Nat} (hsh : t.shape = [a, b, c])
    (hch : ch < a) (hi : i < b) (hj : j < c) :
    broadcastGet t 3 [ch, i, j] = t.get [ch, i, j] := by
  have e1 : (if a = 1 then 0 else ch) = ch := by split <;> omega
  have e2 : (if b = 1 then 0 else i) = i := by split <;> omega
  have e3 : (if c = 1 then 0 else j) = j := by split <;> omega
  unfold broadcastGet
  rw [hsh]
  simp only [List.length_cons, List.length_nil]
  rw [show (3 - 3 : Nat) = 0 from rfl, List.drop_zero]
  simp only [List.zipWith_cons_cons, List.zipWith_nil_left]
  rw [e1, e2, e3]

theorem broadcastGet_self4 {t : Tensor} {n a b c q ch i j : Nat} (hsh : t.shape = [n, a, b, c])
    (hq : q < n) (hch : ch < a) (hi : i < b) (hj : j < c) :
    broadcastGet t 4 [q, ch, i, j] = t.get [q, ch, i, j] := by
  have e0 : (if n = 1 then 0 else q) = q := by split <;> omega
  have e1 : (if a = 1 then 0 else ch) = ch := by split <;> omega
  have e2 : (if b = 1 then 0 else i) = i := by split <;> omega
  have e3 : (if c = 1 then 0 else j) = j := by split <;> omega
  unfold broadcastGet
  rw [hsh]
  simp only [List.length_cons, List.length_nil]
  rw [show (4 - 4 : Nat) = 0 from rfl, List.drop_zero]
  simp only [List.zipWith_cons_cons, List.zipWith_nil_left]
  rw [e0, e1, e2, e3]

theorem broadcastGet_311 (dt : DType) (x y z : FVal) (ch i j : Nat) :
    broadcastGet ⟨dt, [3, 1, 1], [x, y, z]⟩ 3 [ch, i, j] = [x, y, z].getD ch default := by
  unfold broadcastGet Tensor.get
  simp [flatten]

theorem broadcastGet_1311 (dt : DType) (x y z : FVal) (q ch i j : Nat) :
    broadcastGet ⟨dt, [1, 3, 1, 1], [x, y, z]⟩ 4 [q, ch, i, j] = [x, y, z].getD ch default := by
  unfold broadcastGet Tensor.get
  simp [flatten]

theorem getD_fin3 (m : List ℚ) (ch : Nat) (hch : ch < 3) :
    [FVal.fin (m.getD 0 0), FVal.fin (m.getD 1 0), FVal.fin (m.getD 2 0)].getD ch default =
      FVal.fin (m.getD ch 0) := by
  interval_cases ch <;> rfl

theorem normalize_unfold3 (t : Tensor) (m s : List ℚ) (h4 : ¬ t.shape.length = 4) :
    normalize t m s =
      tensorSub t ⟨DType.float, [3, 1, 1], [FVal.fin (m.getD 0 0), FVal.fin (m.getD 1 0),
        FVal.fin (m.getD 2 0)]⟩ >>= fun sub1 =>
      tensorDiv sub1 ⟨DType.float, [3, 1, 1], [FVal.fin (s.getD 0 0), FVal.fin (s.getD 1 0),
        FVal.fin (s.getD 2 0)]⟩ := by
  simp only [normalize, h4, if_neg, ite_false]

theorem normalize_unfold4 (t : Tensor) (m s : List ℚ) (h4 : t.shape.length = 4) :
    normalize t m s =
      tensorSub t ⟨DType.float, [1, 3, 1, 1], [FVal.fin (m.getD 0 0), FVal.fin (m.getD 1 0),
        FVal.fin (m.getD 2 0)]⟩ >>= fun sub1 =>
      tensorDiv sub1 ⟨DType.float, [1, 3, 1, 1], [FVal.fin (s.getD 0 0), FVal.fin (s.getD 1 0),
        FVal.fin (s.getD 2 0)]⟩ := by
  simp only [normalize, h4, if_pos]

theorem promote_float_ne_int (d : DType) (h : promote d DType.float = DType.int) : False := by
  cases d <;> cases h

theorem normalize_rank3_sem (t : Tensor) (m s : List ℚ) {b c : Nat} (hsh : t.shape = [3, b, c]) :
    ∃ r, normalize t m s = Except.ok r ∧ r.shape = [3, b, c] ∧
      ∀ ch i j, ch < 3 → i < b → j < c →
        r.get [ch, i, j] =
          FVal.div (FVal.sub (t.get [ch, i, j]) (FVal.fin (m.getD ch 0)))
            (FVal.fin (s.getD ch 0)) := by
  have h4 : ¬ t.shape.length = 4 := by rw [hsh]; simp
  have hbs1 : broadcastShapes t.shape ([3, 1, 1] : List Nat) = some [3, b, c] := by
    rw [hsh, broadcastShapes_3_311]
    rfl
  have hbs2 : broadcastShapes ([3, b, c] : List Nat) ([3, 1, 1] : List Nat) = some [3, b, c] := by
    rw [broadcastShapes_3_311]
    rfl
  have hsub : tensorSub t ⟨DType.float, [3, 1, 1], [FVal.fin (m.getD 0 0), FVal.fin (m.getD 1 0),
      FVal.fin (m.getD 2 0)]⟩ = Except.ok ⟨promote t.dtype DType.float, [3, b, c],
      (List.range (([3, b, c] : List Nat)).prod).map (fun k =>
        FVal.sub (broadcastGet t 3 (unflatten [3, b, c] k))
          (broadcastGet ⟨DType.float, [3, 1, 1], [FVal.fin (m.getD 0 0), FVal.fin (m.getD 1 0),
            FVal.fin (m.getD 2 0)]⟩ 3 (unflatten [3, b, c] k)))⟩ :=
    tensorBinOp_get hbs1
  have hdiv : tensorDiv (⟨promote t.dtype DType.float, [3, b, c],
      (List.range (([3, b, c] : List Nat)).prod).map (fun k =>
        FVal.sub (broadcastGet t 3 (unflatten [3, b, c] k))
          (broadcastGet ⟨DType.float, [3, 1, 1], [FVal.fin (m.getD 0 0), FVal.fin (m.getD 1 0),
            FVal.fin (m.getD 2 0)]⟩ 3 (unflatten [3, b, c] k)))⟩ : Tensor)
      ⟨DType.float, [3, 1, 1], [FVal.fin (s.getD 0 0), FVal.fin (s.getD 1 0),
        FVal.fin (s.getD 2 0)]⟩ =
      Except.ok ⟨promote (promote t.dtype DType.float) DType.float, [3, b, c],
      (List.range (([3, b, c] : List Nat)).prod).map (fun k =>
        FVal.div
          (broadcastGet (⟨promote t.dtype DType.float, [3, b, c],
            (List.range (([3, b, c] : List Nat)).prod).map (fun k2 =>
              FVal.sub (broadcastGet t 3 (unflatten [3, b, c] k2))
                (broadcastGet ⟨DType.float, [3, 1, 1], [FVal.fin (m.getD 0 0),
                  FVal.fin (m.getD 1 0), FVal.fin (m.getD 2 0)]⟩ 3
                  (unflatten [3, b, c] k2)))⟩ : Tensor) 3 (unflatten [3, b, c] k))
          (broadcastGet ⟨DType.float, [3, 1, 1], [FVal.fin (s.getD 0 0), FVal.fin (s.getD 1 0),
            FVal.fin (s.getD 2 0)]⟩ 3 (unflatten [3, b, c] k)))⟩ := by
    rw [tensorDiv, if_neg]
    · exact tensorBinOp_get hbs2
    · intro hc
      exact promote_float_ne_int t.dtype hc.1
  refine ⟨_, by rw [normalize_unfold3 t m s h4, hsub, bindOk, hdiv], rfl, ?_⟩
  · intro ch i j hch hi hj
    have hJ : validIdx [3, b, c] [ch, i, j] = true := by
      simp [validIdx, hch, hi, hj]
    rw [rangeMap_get _ hJ, unflatten_flatten hJ]
    rw [broadcastGet_self3 rfl hch hi hj, broadcastGet_311, getD_fin3 s ch hch]
    rw [rangeMap_get _ hJ, unflatten_flatten hJ]
    rw [broadcastGet_self3 hsh hch hi hj, broadcastGet_311, getD_fin3 m ch hch]

theorem normalize_rank4_sem (t : Tensor) (m s : List ℚ) {n b c : Nat}
    (hsh : t.shape = [n, 3, b, c]) :
    ∃ r, normalize t m s = Except.ok r ∧ r.shape = [n, 3, b, c] ∧
      ∀ q ch i j, q < n → ch < 3 → i < b → j < c →
        r.get [q, ch, i, j] =
          FVal.div (FVal.sub (t.get [q, ch, i, j]) (FVal.fin (m.getD ch 0)))
            (FVal.fin (s.getD ch 0)) := by
  have h4 : t.shape.length = 4 := by rw [hsh]; rfl
  have hbs1 : broadcastShapes t.shape ([1, 3, 1, 1] : List Nat) = some [n, 3, b, c] := by
    rw [hsh, broadcastShapes_4_1311]
    rfl
  have hbs2 : broadcastShapes ([n, 3, b, c] : List Nat) ([1, 3, 1, 1] : List Nat) =
      some [n, 3, b, c] := by
    rw [broadcastShapes_4_1311]
    rfl
  have hsub : tensorSub t ⟨DType.float, [1, 3, 1, 1], [FVal.fin (m.getD 0 0),
      FVal.fin (m.getD 1 0), FVal.fin (m.getD 2 0)]⟩ =
      Except.ok ⟨promote t.dtype DType.float, [n, 3, b, c],
      (List.range (([n, 3, b, c] : List Nat)).prod).map (fun k =>
        FVal.sub (broadcastGet t 4 (unflatten [n, 3, b, c] k))
          (broadcastGet ⟨DType.float, [1, 3, 1, 1], [FVal.fin (m.getD 0 0),
            FVal.fin (m.getD 1 0), FVal.fin (m.getD 2 0)]⟩ 4 (unflatten [n, 3, b, c] k)))⟩ :=
    tensorBinOp_get hbs1
  have hdiv : tensorDiv (⟨promote t.dtype DType.float, [n, 3, b, c],
      (List.range (([n, 3, b, c] : List Nat)).prod).map (fun k =>
        FVal.sub (broadcastGet t 4 (unflatten [n, 3, b, c] k))
          (broadcastGet ⟨DType.float, [1, 3, 1, 1], [FVal.fin (m.getD 0 0),
            FVal.fin (m.getD 1 0), FVal.fin (m.getD 2 0)]⟩ 4
            (unflatten [n, 3, b, c] k)))⟩ : Tensor)
      ⟨DType.float, [1, 3, 1, 1], [FVal.fin (s.getD 0 0), FVal.fin (s.getD 1 0),
        FVal.fin (s.getD 2 0)]⟩ =
      Except.ok ⟨promote (promote t.dtype DType.float) DType.float, [n, 3, b, c],
      (List.range (([n, 3, b, c] : List Nat)).prod).map (fun k =>
        FVal.div
          (broadcastGet (⟨promote t.dtype DType.float, [n, 3, b, c],
            (List.range (([n, 3, b, c] : List Nat)).prod).map (fun k2 =>
              FVal.sub (broadcastGet t 4 (unflatten [n, 3, b, c] k2))
                (broadcastGet ⟨DType.float, [1, 3, 1, 1], [FVal.fin (m.getD 0 0),
                  FVal.fin (m.getD 1 0), FVal.fin (m.getD 2 0)]⟩ 4
                  (unflatten [n, 3, b, c] k2)))⟩ : Tensor) 4 (unflatten [n, 3, b, c] k))
          (broadcastGet ⟨DType.float, [1, 3, 1, 1], [FVal.fin (s.getD 0 0),
            FVal.fin (s.getD 1 0), FVal.fin (s.getD 2 0)]⟩ 4
            (unflatten [n, 3, b, c] k)))⟩ := by
    rw [tensorDiv, if_neg]
    · exact tensorBinOp_get hbs2
    · intro hc
      exact promote_float_ne_int t.dtype hc.1
  refine ⟨_, by rw [normalize_unfold4 t m s h4, hsub, bindOk, hdiv], rfl, ?_⟩
  · intro q ch i j hq hch hi hj
    have hJ : validIdx [n, 3, b, c] [q, ch, i, j] = true := by
      simp [validIdx, hq, hch, hi, hj]
    rw [rangeMap_get _ hJ, unflatten_flatten hJ]
    rw [broadcastGet_self4 rfl hq hch hi hj, broadcastGet_1311, getD_fin3 s ch hch]
    rw [rangeMap_get _ hJ, unflatten_flatten hJ]
    rw [broadcastGet_self4 hsh hq hch hi hj, broadcastGet_1311, getD_fin3 m ch hch]

/-- Witness for C8 at a rank-2 tensor. -/
theorem resize_shape_error_witness :
    resize ⟨DType.float, [2, 2], [FVal.fin 0, FVal.fin 0, FVal.fin 0, FVal.fin 0]⟩
        [1, 1] false = Except.error TError.shapeError :=
  resize_shape_error _ [1, 1] false (Or.inl ⟨by decide, by decide⟩)

theorem normalize_rank3_ox (t : Tensor) (m s : List ℚ) {a b c : Nat}
    (hsh : t.shape = [a, b, c]) (ha : a = 1 ∨ a = 3) :
    ∃ r, normalize t m s = Except.ok r := by
  have h4 : ¬ t.shape.length = 4 := by rw [hsh]; simp
  have hbs1 : broadcastShapes t.shape ([3, 1, 1] : List Nat) = some [3, b, c] := by
    rw [hsh, broadcastShapes_3_311, bcastDim_three, if_pos ha]
    rfl
  have hbs2 : broadcastShapes ([3, b, c] : List Nat) ([3, 1, 1] : List Nat) = some [3, b, c] := by
    rw [broadcastShapes_3_311]
    rfl
  rw [normalize_unfold3 t m s h4, tensorSub, tensorBinOp_get hbs1, bindOk, tensorDiv, if_neg]
  · rw [tensorBinOp_get hbs2]
    exact ⟨_, rfl⟩
  · intro hc
    exact promote_float_ne_int t.dtype hc.1

theorem normalize_rank3_fail (t : Tensor) (m s : List ℚ) {a b c : Nat}
    (hsh : t.shape = [a, b, c]) (ha : ¬ (a = 1 ∨ a = 3)) :
    normalize t m s = Except.error TError.shapeError := by
  have h4 : ¬ t.shape.length = 4 := by rw [hsh]; simp
  have hbs : broadcastShapes t.shape ([3, 1, 1] : List Nat) = none := by
    rw [hsh, broadcastShapes_3_311, bcastDim_three, if_neg ha]
    rfl
  rw [normalize_unfold3 t m s h4, tensorSub, tensorBinOp, hbs, bindErr]

theorem normalize_rank4_ox (t : Tensor) (m s : List ℚ) {n a b c : Nat}
    (hsh : t.shape = [n, a, b, c]) (ha : a = 1 ∨ a = 3) :
    ∃ r, normalize t m s = Except.ok r := by
  have h4 : t.shape.length = 4 := by rw [hsh]; rfl
  have hbs1 : broadcastShapes t.shape ([1, 3, 1, 1] : List Nat) = some [n, 3, b, c] := by
    rw [hsh, broadcastShapes_4_1311, bcastDim_three, if_pos ha]
    rfl
  have hbs2 : broadcastShapes ([n, 3, b, c] : List Nat) ([1, 3, 1, 1] : List Nat) =
      some [n, 3, b, c] := by
    rw [broadcastShapes_4_1311]
    rfl
  rw [normalize_unfold4 t m s h4, tensorSub, tensorBinOp_get hbs1, bindOk, tensorDiv, if_neg]
  · rw [tensorBinOp_get hbs2]
    exact ⟨_, rfl⟩
  · intro hc
    exact promote_float_ne_int t.dtype hc.1

theorem normalize_rank4_fail (t : Tensor) (m s : List ℚ) {n a b c : Nat}
    (hsh : t.shape = [n, a, b, c]) (ha : ¬ (a = 1 ∨ a = 3)) :
    normalize t m s = Except.error TError.shapeError := by
  have h4 : t.shape.length = 4 := by rw [hsh]; rfl
  have hbs : broadcastShapes t.shape ([1, 3, 1, 1] : List Nat) = none := by
    rw [hsh, broadcastShapes_4_1311, bcastDim_three, if_neg ha]
    rfl
  rw [normalize_unfold4 t m s h4, tensorSub, tensorBinOp, hbs, bindErr]

theorem normalize_error_kind (t : Tensor) (m s : List ℚ) {e : TError}
    (he : normalize t m s = Except.error e) : e = TError.shapeError := by
  have key : ∀ (mt st : Tensor), mt.dtype = DType.float →
      (tensorSub t mt >>= fun s1 => tensorDiv s1 st) = Except.error e →
      e = TError.shapeError := by
    intro mt st hmt hrun
    cases h1 : tensorSub t mt with
    | error e1 =>
      rw [h1, bindErr] at hrun
      cases hrun
      exact tensorBinOp_error h1
    | ok s1 =>
      rw [h1, bindOk] at hrun
      cases hbs : broadcastShapes t.shape mt.shape with
      | none =>
        rw [tensorSub, tensorBinOp, hbs] at h1
        cases h1
      | some sh =>
        have h1b := h1
        rw [tensorSub, tensorBinOp_get hbs] at h1b
        have hs1 : s1.dtype = DType.float := by
          cases h1b
          rw [← hmt]
          cases hmtv : mt.dtype <;> cases htv : t.dtype <;> simp [promote, hmtv, htv] <;>
            rw [hmt] at hmtv <;> cases hmtv
        rw [tensorDiv, if_neg] at hrun
        · exact tensorBinOp_error hrun
        · intro hc
          rw [hs1] at hc
          cases hc.1
  by_cases h4 : t.shape.length = 4
  · exact key _ _ rfl (by rw [← normalize_unfold4 t m s h4]; exact he)
  · exact key _ _ rfl (by rw [← normalize_unfold3 t m s h4]; exact he)

/-- C2 (amended): for a tensor with a size-3 channel axis, normalize
subtracts the per-channel mean and divides by the per-channel std,
broadcasting the 3-entry vectors over the remaining axes — with the
channel axis being axis 0 for rank-3 input (channel-first, as produced by
toTensor) and axis 1 for rank-4 input. -/
theorem normalize_channel_semantics (t : Tensor) (m s : List ℚ) :
    (∀ b c, t.shape = [3, b, c] →
      ∃ r, normalize t m s = Except.ok r ∧ r.shape = [3, b, c] ∧
        ∀ ch i j, ch < 3 → i < b → j < c →
          r.get [ch, i, j] =
            FVal.div (FVal.sub (t.get [ch, i, j]) (FVal.fin (m.getD ch 0)))
              (FVal.fin (s.getD ch 0))) ∧
    (∀ n b c, t.shape = [n, 3, b, c] →
      ∃ r, normalize t m s = Except.ok r ∧ r.shape = [n, 3, b, c] ∧
        ∀ q ch i j, q < n → ch < 3 → i < b → j < c →
          r.get [q, ch, i, j] =
            FVal.div (FVal.sub (t.get [q, ch, i, j]) (FVal.fin (m.getD ch 0)))
              (FVal.fin (s.getD ch 0))) :=
  ⟨fun _ _ hsh => normalize_rank3_sem t m s hsh,
   fun _ _ _ hsh => normalize_rank4_sem t m s hsh⟩

/-- Witness for C2 (amended) at a concrete channel-first rank-3 tensor. -/
theorem normalize_channel_semantics_witness :
    ∃ r, normalize ⟨DType.float, [3, 1, 1], [FVal.fin 10, FVal.fin 20, FVal.fin 30]⟩
        [1, 2, 3] [1, 1, 1] = Except.ok r ∧ r.shape = [3, 1, 1] ∧
      ∀ ch i j, ch < 3 → i < 1 → j < 1 →
        r.get [ch, i, j] =
          FVal.div (FVal.sub
            ((⟨DType.float, [3, 1, 1], [FVal.fin 10, FVal.fin 20, FVal.fin 30]⟩ : Tensor).get
              [ch, i, j])
            (FVal.fin (([1, 2, 3] : List ℚ).getD ch 0)))
            (FVal.fin (([1, 1, 1] : List ℚ).getD ch 0)) :=
  (normalize_channel_semantics ⟨DType.float, [3, 1, 1],
    [FVal.fin 10, FVal.fin 20, FVal.fin 30]⟩ [1, 2, 3] [1, 1, 1]).1 1 1 rfl

/-- C2 counterexample: on the rank-3 tensor of shape 1 1 3 (whose last
axis has size 3), the claimed last-axis normalization would preserve the
shape, but the code broadcasts the 3 1 1 mean tensor against axis 0 and
returns a tensor of shape 3 1 3. -/
theorem normalize_channel_counterexample :
    (normalize ⟨DType.float, [1, 1, 3], [FVal.fin 5, FVal.fin 6, FVal.fin 7]⟩
        [0, 10, 20] [1, 1, 1]).map Tensor.shape = Except.ok [3, 1, 3] ∧
    ([3, 1, 3] : List Nat) ≠ [1, 1, 3] :=
  ⟨rfl, by decide⟩

/-- C4 (amended): normalize performs no explicit validation.  It succeeds
exactly when the channel axis (axis 0 for rank 3, axis 1 for rank 4) has
size 1 or 3 — so a channel size other than 3 is not rejected when it is 1
— for every mean and std array, including a std containing zero; the only
error it can report is the broadcast shape error, never a divide-by-zero
error. -/
theorem normalize_validation (t : Tensor) (m s : List ℚ) :
    (∀ a b c, t.shape = [a, b, c] →
      ((∃ r, normalize t m s = Except.ok r) ↔ (a = 1 ∨ a = 3))) ∧
    (∀ n a b c, t.shape = [n, a, b, c] →
      ((∃ r, normalize t m s = Except.ok r) ↔ (a = 1 ∨ a = 3))) ∧
    (∀ e, normalize t m s = Except.error e → e = TError.shapeError) := by
  refine ⟨fun a b c hsh => ⟨?_, fun ha => normalize_rank3_ox t m s hsh ha⟩,
          fun n a b c hsh => ⟨?_, fun ha => normalize_rank4_ox t m s hsh ha⟩,
          fun e he => normalize_error_kind t m s he⟩
  · rintro ⟨r, hr⟩
    by_contra ha
    rw [normalize_rank3_fail t m s hsh ha] at hr
    cases hr
  · rintro ⟨r, hr⟩
    by_contra ha
    rw [normalize_rank4_fail t m s hsh ha] at hr
    cases hr

/-- Witness for C4 (amended): a channel axis of size 1 is accepted. -/
theorem normalize_validation_witness :
    ∃ r, normalize ⟨DType.float, [1, 1, 1], [FVal.fin 4]⟩ [0, 0, 0] [1, 1, 1] = Except.ok r :=
  ((normalize_validation ⟨DType.float, [1, 1, 1], [FVal.fin 4]⟩ [0, 0, 0] [1, 1, 1]).1
    1 1 1 rfl).mpr (Or.inl rfl)

/-- C4 counterexample: a channel axis of size 1 (not 3) raises no shape
error, and an all-zero std raises no divide-by-zero error — the division
produces an IEEE infinity instead. -/
theorem normalize_validation_counterexample :
    (normalize ⟨DType.float, [1, 1, 1], [FVal.fin 4]⟩ [0, 0, 0] [1, 1, 1]).map Tensor.shape =
      Except.ok [3, 1, 1] ∧
    (normalize ⟨DType.float, [3, 1, 1], [FVal.fin 1, FVal.fin 2, FVal.fin 0]⟩
        [0, 0, 0] [0, 0, 0]).map Tensor.shape = Except.ok [3, 1, 1] ∧
    (normalize ⟨DType.float, [3, 1, 1], [FVal.fin 1, FVal.fin 2, FVal.fin 0]⟩
        [0, 0, 0] [0, 0, 0]).toOption.map (fun r => r.get [0, 0, 0]) = some FVal.posInf := by
  refine ⟨rfl, rfl, ?_⟩
  obtain ⟨r, hok, hshape, helem⟩ :=
    normalize_rank3_sem ⟨DType.float, [3, 1, 1], [FVal.fin 1, FVal.fin 2, FVal.fin 0]⟩
      [0, 0, 0] [0, 0, 0] rfl
  rw [hok]
  simp only [Except.toOption, Option.map]
  rw [helem 0 0 0 (by decide) (by decide) (by decide)]
  norm_num [Tensor.get, flatten, FVal.sub, FVal.div]

theorem get_mk (dt : DType) (sh : List Nat) (da2 : List FVal) (J : List Nat) :
    (⟨dt, sh, da2⟩ : Tensor).get J = da2.getD (flatten sh J) default := rfl

theorem map_range_eq_of_getD {α : Type} {f : Nat → α} {l : List α} {X : Nat} (d : α)
    (hlen : l.length = X) (h : ∀ m, m < X → f m = l.getD m d) :
    (List.range X).map f = l :=
  Eq.trans (List.map_congr_left (fun a ha => h a (List.mem_range.mp ha)))
    (map_getD_range_self hlen d)

theorem roundtrip255 (k : ℚ) :
    FVal.smul 255 (FVal.div (FVal.fin k) (FVal.fin 255)) = FVal.fin k := by
  have h255 : (255 : ℚ) ≠ 0 := by norm_num
  simp [FVal.div, FVal.smul, h255]
  exact mul_div_cancel₀ k h255

theorem toTensor_roundtrip4 (dt : DType) (da : List FVal) (n h w c : Nat)
    (hwf : da.length = ([n, h, w, c] : List Nat).prod)
    (hpix : ∀ v ∈ da, ∃ k : ℕ, k ≤ 255 ∧ v = FVal.fin k) :
    ∃ r, toTensor ⟨dt, [n, h, w, c], da⟩ = Except.ok r ∧ r.shape = [n, c, h, w] ∧
      permuteT [0, 2, 3, 1] (mulScalar 255 r) =
        Except.ok ⟨DType.float, [n, h, w, c], da⟩ := by
  refine ⟨⟨DType.float, [n, c, h, w],
    (List.range (([n, c, h, w] : List Nat)).prod).map (fun k =>
      (⟨DType.float, [n, h, w, c], da.map (fun v => FVal.div v (FVal.fin 255))⟩ : Tensor).get
        [(unflatten [n, c, h, w] k).getD 0 0, (unflatten [n, c, h, w] k).getD 2 0,
         (unflatten [n, c, h, w] k).getD 3 0, (unflatten [n, c, h, w] k).getD 1 0])⟩,
    rfl, rfl, ?_⟩
  show Except.ok (⟨DType.float, [n, h, w, c],
    (List.range (([n, h, w, c] : List Nat)).prod).map (fun m =>
      (⟨DType.float, [n, c, h, w],
        ((List.range (([n, c, h, w] : List Nat)).prod).map (fun k =>
          (⟨DType.float, [n, h, w, c],
            da.map (fun v => FVal.div v (FVal.fin 255))⟩ : Tensor).get
            [(unflatten [n, c, h, w] k).getD 0 0, (unflatten [n, c, h, w] k).getD 2 0,
             (unflatten [n, c, h, w] k).getD 3 0,
             (unflatten [n, c, h, w] k).getD 1 0])).map (FVal.smul 255)⟩ : Tensor).get
        [(unflatten [n, h, w, c] m).getD 0 0, (unflatten [n, h, w, c] m).getD 3 0,
         (unflatten [n, h, w, c] m).getD 1 0, (unflatten [n, h, w, c] m).getD 2 0])⟩ : Tensor) =
    Except.ok ⟨DType.float, [n, h, w, c], da⟩
  refine congrArg Except.ok (congrArg (Tensor.mk DType.float [n, h, w, c]) ?_)
  refine map_range_eq_of_getD default hwf ?_
  intro m hm
  obtain ⟨x0, x1, x2, x3, hI⟩ := length_eq_four (unflatten_length [n, h, w, c] m)
  have hvalid := unflatten_valid hm
  rw [hI] at hvalid
  simp only [validIdx, Bool.and_eq_true, decide_eq_true_eq] at hvalid
  obtain ⟨hx0, hx1, hx2, hx3, -⟩ := hvalid
  have hflat : flatten [n, h, w, c] [x0, x1, x2, x3] = m := by
    rw [← hI]
    exact flatten_unflatten hm
  rw [hI]
  rw [show ([x0, x1, x2, x3] : List Nat).getD 0 0 = x0 from rfl,
    show ([x0, x1, x2, x3] : List Nat).getD 3 0 = x3 from rfl,
    show ([x0, x1, x2, x3] : List Nat).getD 1 0 = x1 from rfl,
    show ([x0, x1, x2, x3] : List Nat).getD 2 0 = x2 from rfl]
  rw [get_mk]
  have hKvalid : validIdx [n, c, h, w] [x0, x3, x1, x2] = true := by
    simp [validIdx, hx0, hx1, hx2, hx3]
  have hKlt : flatten [n, c, h, w] [x0, x3, x1, x2] < ([n, c, h, w] : List Nat).prod :=
    flatten_lt hKvalid
  rw [getD_map_lt (by simpa using hKlt) (FVal.smul 255) default default]
  rw [getD_map_range hKlt _ default]
  rw [unflatten_flatten hKvalid]
  rw [show ([x0, x3, x1, x2] : List Nat).getD 0 0 = x0 from rfl,
    show ([x0, x3, x1, x2] : List Nat).getD 2 0 = x1 from rfl,
    show ([x0, x3, x1, x2] : List Nat).getD 3 0 = x2 from rfl,
    show ([x0, x3, x1, x2] : List Nat).getD 1 0 = x3 from rfl]
  rw [get_mk, hflat]
  have hmda : m < da.length := by rw [hwf]; exact hm
  rw [getD_map_lt hmda _ default default]
  obtain ⟨kk, hk255, hkeq⟩ := hpix (da.getD m default)
    (by rw [List.getD_eq_getElem _ _ hmda]; exact List.getElem_mem hmda)
  rw [hkeq]
  exact roundtrip255 kk

theorem toTensor_roundtrip3 (dt : DType) (da : List FVal) (h w c : Nat)
    (hwf : da.length = ([h, w, c] : List Nat).prod)
    (hpix : ∀ v ∈ da, ∃ k : ℕ, k ≤ 255 ∧ v = FVal.fin k) :
    ∃ r, toTensor ⟨dt, [h, w, c], da⟩ = Except.ok r ∧ r.shape = [c, h, w] ∧
      permuteT [1, 2, 0] (mulScalar 255 r) =
        Except.ok ⟨DType.float, [h, w, c], da⟩ := by
  have hprodeq : ([1, c, h, w] : List Nat).prod = ([c, h, w] : List Nat).prod := by
    simp [List.prod_cons]
  refine ⟨⟨DType.float, [c, h, w],
    (List.range (([1, c, h, w] : List Nat)).prod).map (fun k =>
      (⟨DType.float, [1, h, w, c], da.map (fun v => FVal.div v (FVal.fin 255))⟩ : Tensor).get
        [(unflatten [1, c, h, w] k).getD 0 0, (unflatten [1, c, h, w] k).getD 2 0,
         (unflatten [1, c, h, w] k).getD 3 0, (unflatten [1, c, h, w] k).getD 1 0])⟩,
    rfl, rfl, ?_⟩
  show Except.ok (⟨DType.float, [h, w, c],
    (List.range (([h, w, c] : List Nat)).prod).map (fun m =>
      (⟨DType.float, [c, h, w],
        ((List.range (([1, c, h, w] : List Nat)).prod).map (fun k =>
          (⟨DType.float, [1, h, w, c],
            da.map (fun v => FVal.div v (FVal.fin 255))⟩ : Tensor).get
            [(unflatten [1, c, h, w] k).getD 0 0, (unflatten [1, c, h, w] k).getD 2 0,
             (unflatten [1, c, h, w] k).getD 3 0,
             (unflatten [1, c, h, w] k).getD 1 0])).map (FVal.smul 255)⟩ : Tensor).get
        [(unflatten [h, w, c] m).getD 2 0, (unflatten [h, w, c] m).getD 0 0,
         (unflatten [h, w, c] m).getD 1 0])⟩ : Tensor) =
    Except.ok ⟨DType.float, [h, w, c], da⟩
  refine congrArg Except.ok (congrArg (Tensor.mk DType.float [h, w, c]) ?_)
  refine map_range_eq_of_getD default hwf ?_
  intro m hm
  obtain ⟨x0, x1, x2, hI⟩ := List.length_eq_three.mp (unflatten_length [h, w, c] m)
  have hvalid := unflatten_valid hm
  rw [hI] at hvalid
  simp only [validIdx, Bool.and_eq_true, decide_eq_true_eq] at hvalid
  obtain ⟨hx0, hx1, hx2, -⟩ := hvalid
  have hflat : flatten [h, w, c] [x0, x1, x2] = m := by
    rw [← hI]
    exact flatten_unflatten hm
  rw [hI]
  rw [show ([x0, x1, x2] : List Nat).getD 2 0 = x2 from rfl,
    show ([x0, x1, x2] : List Nat).getD 0 0 = x0 from rfl,
    show ([x0, x1, x2] : List Nat).getD 1 0 = x1 from rfl]
  rw [get_mk]
  have hKvalid : validIdx [c, h, w] [x2, x0, x1] = true := by
    simp [validIdx, hx0, hx1, hx2]
  have hKlt : flatten [c, h, w] [x2, x0, x1] < ([c, h, w] : List Nat).prod :=
    flatten_lt hKvalid
  have hKlt14 : flatten [c, h, w] [x2, x0, x1] < ([1, c, h, w] : List Nat).prod := by
    rw [hprodeq]
    exact hKlt
  rw [getD_map_lt (by simpa using hKlt14) (FVal.smul 255) default default]
  rw [getD_map_range hKlt14 _ default]
  have hKun : unflatten [1, c, h, w] (flatten [c, h, w] [x2, x0, x1]) =
      [0, x2, x0, x1] := by
    show flatten [c, h, w] [x2, x0, x1] / ([c, h, w] : List Nat).prod ::
      unflatten [c, h, w] (flatten [c, h, w] [x2, x0, x1] % ([c, h, w] : List Nat).prod) = _
    rw [Nat.div_eq_of_lt hKlt, Nat.mod_eq_of_lt hKlt, unflatten_flatten hKvalid]
  rw [hKun]
  rw [show ([0, x2, x0, x1] : List Nat).getD 0 0 = 0 from rfl,
    show ([0, x2, x0, x1] : List Nat).getD 2 0 = x0 from rfl,
    show ([0, x2, x0, x1] : List Nat).getD 3 0 = x1 from rfl,
    show ([0, x2, x0, x1] : List Nat).getD 1 0 = x2 from rfl]
  rw [get_mk]
  have hfl4 : flatten [1, h, w, c] [0, x0, x1, x2] = flatten [h, w, c] [x0, x1, x2] := by
    show 0 * ([h, w, c] : List Nat).prod + flatten [h, w, c] [x0, x1, x2] = _
    omega
  rw [hfl4, hflat]
  have hmda : m < da.length := by rw [hwf]; exact hm
  rw [getD_map_lt hmda _ default default]
  obtain ⟨kk, hk255, hkeq⟩ := hpix (da.getD m default)
    (by rw [List.getD_eq_getElem _ _ hmda]; exact List.getElem_mem hmda)
  rw [hkeq]
  exact roundtrip255 kk

/-- C7: on a rank-3 or rank-4 tensor holding integer pixel values in the
range 0 to 255, toTensor divides every element by 255 and permutes the
layout from channel-last to channel-first, so that multiplying the result
by 255 and permuting the layout back recovers the original values exactly
(the model uses exact rational arithmetic, so the floating-point tolerance
of the claim is met by exact equality). -/
theorem toTensor_roundtrip (t : Tensor) (hwf : t.wf)
    (hpix : ∀ v ∈ t.data, ∃ k : ℕ, k ≤ 255 ∧ v = FVal.fin k) :
    (∀ h w c, t.shape = [h, w, c] →
      ∃ r, toTensor t = Except.ok r ∧ r.shape = [c, h, w] ∧
        permuteT [1, 2, 0] (mulScalar 255 r) = Except.ok ⟨DType.float, t.shape, t.data⟩) ∧
    (∀ n h w c, t.shape = [n, h, w, c] →
      ∃ r, toTensor t = Except.ok r ∧ r.shape = [n, c, h, w] ∧
        permuteT [0, 2, 3, 1] (mulScalar 255 r) = Except.ok ⟨DType.float, t.shape, t.data⟩) := by
  constructor
  · intro h w c hsh
    rcases t with ⟨dt, sh, da⟩
    simp only at hsh
    subst hsh
    exact toTensor_roundtrip3 dt da h w c hwf hpix
  · intro n h w c hsh
    rcases t with ⟨dt, sh, da⟩
    simp only at hsh
    subst hsh
    exact toTensor_roundtrip4 dt da n h w c hwf hpix

/-- Witness for C7 at a one-pixel rank-3 tensor with value 7. -/
theorem toTensor_roundtrip_witness :
    ∃ r, toTensor ⟨DType.int, [1, 1, 1], [FVal.fin 7]⟩ = Except.ok r ∧ r.shape = [1, 1, 1] ∧
      permuteT [1, 2, 0] (mulScalar 255 r) =
        Except.ok ⟨DType.float, (⟨DType.int, [1, 1, 1], [FVal.fin 7]⟩ : Tensor).shape,
          (⟨DType.int, [1, 1, 1], [FVal.fin 7]⟩ : Tensor).data⟩ :=
  (toTensor_roundtrip ⟨DType.int, [1, 1, 1], [FVal.fin 7]⟩ rfl
    (fun v hv => ⟨7, by norm_num, by simpa using hv⟩)).1 1 1 1 rfl

end DJL

